import Mathlib

/-!
Verification development for the Eshkol compiler sources.

Shallow embedding of:
  * the lexer's `number` routine (src/frontend/lexer/lexer.c);
  * `binding_system_create_binding` (src/frontend/binding/);
  * `arena_alloc` (core memory arena);
  * the code-generator context's indentation counter
    (refactor/src/backend/codegen/context.c);
  * the compiler driver `main` (src/src/main.c);
  * `codegen_generate_call` and the expression generator it relies on
    (backend/codegen/calls.c).

Machine integers are modelled as `Nat`/`Int`; the `uint64_t` binding-id
counter is reduced modulo `2 ^ 64` where it is incremented.  The C `FILE*`
output stream is modelled as a `List Char` that `fprintf` appends to.
The floating payload produced by `strtod` is modelled as the exact decimal
rational; IEEE rounding is abstracted away.
-/

set_option maxHeartbeats 1000000

namespace Eshkol

/-! ### Lexer: the `number` routine -/

/-- `is_digit` from the lexer: ASCII decimal digit test. -/
def is_digit (c : Char) : Bool :=
  '0' ≤ c && c ≤ '9'

/-- The `while (is_digit(peek(lexer))) advance(lexer);` loop: splits the
input into its maximal leading run of digits and the rest. -/
def takeDigits : List Char → List Char × List Char
  | [] => ([], [])
  | c :: rest =>
    if is_digit c then
      let p := takeDigits rest
      (c :: p.1, p.2)
    else ([], c :: rest)

/-- Value of a digit string read in base 10 (accumulator form, as the C
library routines do). -/
def digitsVal (l : List Char) : Nat :=
  l.foldl (fun a c => 10 * a + (c.toNat - 48)) 0

/-- `strtol(start, &end, 10)` on the token lexeme: optional sign, then the
maximal run of decimal digits.  Overflow clamping to `LONG_MAX` is not
modelled (lexemes of that size do not arise in the claims). -/
def strtol10 (l : List Char) : Int :=
  match l with
  | '-' :: t => - (digitsVal (t.takeWhile is_digit) : Int)
  | '+' :: t => (digitsVal (t.takeWhile is_digit) : Int)
  | _ => (digitsVal (l.takeWhile is_digit) : Int)

/-- Unsigned decimal conversion of `digits [. digits]` to the exact
rational it denotes. -/
def decVal (l : List Char) : ℚ :=
  let intPart := l.takeWhile is_digit
  match l.dropWhile is_digit with
  | '.' :: t =>
    let frac := t.takeWhile is_digit
    (digitsVal intPart : ℚ) + (digitsVal frac : ℚ) / (10 : ℚ) ^ frac.length
  | _ => (digitsVal intPart : ℚ)

/-- `strtod` on the lexemes the lexer produces (sign, digits, optional
point and fraction; no exponent can appear): the exact decimal value. -/
def strtodQ (l : List Char) : ℚ :=
  match l with
  | '-' :: t => - decVal t
  | '+' :: t => decVal t
  | _ => decVal l

/-- Payload of a `TOKEN_NUMBER`: the C token's value union holds either
`token.value.integer` or `token.value.floating`. -/
inductive NumberValue where
  | integer (v : Int)
  | floating (v : ℚ)
deriving DecidableEq

/-- The scanning part of `number`: consume digits, then a decimal point
only when it is immediately followed by a digit, then the fraction
digits.  `pre` is the part of the lexeme consumed before `number`'s loops
run (the leading sign or first digit); returns the full lexeme and the
remaining input. -/
def scanNumber (pre rest : List Char) : List Char × List Char :=
  let p := takeDigits rest
  match p.2 with
  | '.' :: c :: r2 =>
    if is_digit c then
      let q := takeDigits (c :: r2)
      (pre ++ p.1 ++ '.' :: q.1, q.2)
    else (pre ++ p.1, p.2)
  | _ => (pre ++ p.1, p.2)

/-- `static Token number(Lexer*)`: scan the lexeme, decide float by
scanning the lexeme for a `'.'`, and parse with `strtod`/`strtol`.
Returns (payload, lexeme, remaining input). -/
def number (pre rest : List Char) : NumberValue × List Char × List Char :=
  let s := scanNumber pre rest
  let lexeme := s.1
  if lexeme.contains '.' then
    (NumberValue.floating (strtodQ lexeme), lexeme, s.2)
  else
    (NumberValue.integer (strtol10 lexeme), lexeme, s.2)

/-! ### Binding system: `binding_system_create_binding` -/

/-- The binding table and id counter of a `BindingSystem`.  The parallel
arrays of the C table are lists; `count` is the length of the stored
lists, `capacity` the allocated capacity that triggers the resize path. -/
structure BindingSystem where
  next_binding_id : Nat
  binding_ids : List Nat
  scope_ids : List Nat
  names : List Nat
  flags : List Nat
  capacity : Nat
deriving DecidableEq

/-- `2 ^ 64`, the modulus of the `uint64_t` id counter. -/
def UINT64_MOD : Nat := 2 ^ 64

/-- `binding_system_create_binding`: reserves the next id (incrementing
the counter first, even on the failure path), resizes the table when
full — returning `BINDING_ID_INVALID` (modelled as `none`) when that
allocation fails — and otherwise appends the binding row.  `alloc_ok`
stands for the success of the four `arena_alloc` calls of the resize. -/
def binding_system_create_binding (sys : BindingSystem)
    (scope_id name flags : Nat) (alloc_ok : Bool) :
    Option Nat × BindingSystem :=
  let binding_id := sys.next_binding_id
  let next := (binding_id + 1) % UINT64_MOD
  if sys.binding_ids.length ≥ sys.capacity then
    if alloc_ok then
      let new_capacity := if sys.capacity * 2 = 0 then 8 else sys.capacity * 2
      (some binding_id,
       { next_binding_id := next
         binding_ids := sys.binding_ids ++ [binding_id]
         scope_ids := sys.scope_ids ++ [scope_id]
         names := sys.names ++ [name]
         flags := sys.flags ++ [flags]
         capacity := new_capacity })
    else (none, { sys with next_binding_id := next })
  else
    (some binding_id,
     { sys with
       next_binding_id := next
       binding_ids := sys.binding_ids ++ [binding_id]
       scope_ids := sys.scope_ids ++ [scope_id]
       names := sys.names ++ [name]
       flags := sys.flags ++ [flags] })

/-- Run a sequence of `binding_system_create_binding` calls (each call is
a `(scope_id, name, flags, alloc_ok)` tuple) and collect the ids returned
by the successful calls, in call order. -/
def run_create_bindings (sys : BindingSystem) :
    List (Nat × Nat × Nat × Bool) → List Nat
  | [] => []
  | (s, n, f, ok) :: rest =>
    match binding_system_create_binding sys s n f ok with
    | (some id, sys') => id :: run_create_bindings sys' rest
    | (none, sys') => run_create_bindings sys' rest

/-! ### Arena allocator: `arena_alloc` -/

/-- One arena block: the byte size of its data area and the bytes used. -/
structure MemBlock where
  bsize : Nat
  bused : Nat
deriving DecidableEq

/-- The arena control structure.  `prev` holds the filled blocks in list
order (the C `first`/`next` chain without the current block). -/
structure CArena where
  current : MemBlock
  prev : List MemBlock
  total_used : Nat
  allocation_count : Nat
  min_block_size : Nat
deriving DecidableEq

/-- Result of `arena_alloc`: a pointer (identified by its byte offset
into the current block) or `NULL`. -/
inductive AllocResult where
  | ptr (offsetInBlock : Nat)
  | nullPtr
deriving DecidableEq

/-- `arena_alloc`: returns `NULL` for size 0; aligns the size to 8 bytes
(`(size + 7) & ~7`, i.e. `((size + 7) / 8) * 8`); starts a new block of
size `current->size * 2`, raised to the aligned size when that is larger,
when the current block lacks room (`malloc_ok` stands for the success of
that `malloc`; on its failure the arena is left untouched); then bumps
the current block, `total_used`, and `allocation_count`. -/
def arena_alloc (arena : CArena) (size : Nat) (malloc_ok : Bool) :
    AllocResult × CArena :=
  if size = 0 then (AllocResult.nullPtr, arena)
  else
    let asize := ((size + 7) / 8) * 8
    if arena.current.bused + asize > arena.current.bsize then
      if malloc_ok then
        let nbs0 := arena.current.bsize * 2
        let nbs := if nbs0 < asize then asize else nbs0
        let a := { arena with
                   prev := arena.prev ++ [arena.current]
                   current := ⟨nbs, 0⟩ }
        (AllocResult.ptr a.current.bused,
         { a with
           current := ⟨a.current.bsize, a.current.bused + asize⟩
           total_used := a.total_used + asize
           allocation_count := a.allocation_count + 1 })
      else (AllocResult.nullPtr, arena)
    else
      (AllocResult.ptr arena.current.bused,
       { arena with
         current := ⟨arena.current.bsize, arena.current.bused + asize⟩
         total_used := arena.total_used + asize
         allocation_count := arena.allocation_count + 1 })

/-! ### Codegen context: the indentation counter -/

/-- The mutable fields of `CodegenContext` that the indentation API
touches (`indent_level` is a C `int`, modelled as `Int`). -/
structure CodegenContextState where
  indent_level : Int
  in_function : Bool
deriving DecidableEq

/-- The state `codegen_context_create` initializes:
`indent_level = 0`, `in_function = false`. -/
def codegen_context_create_state : CodegenContextState :=
  { indent_level := 0, in_function := false }

/-- `codegen_context_increment_indent`. -/
def codegen_context_increment_indent (c : CodegenContextState) :
    CodegenContextState :=
  { c with indent_level := c.indent_level + 1 }

/-- `codegen_context_decrement_indent`: decrements only when the level is
positive. -/
def codegen_context_decrement_indent (c : CodegenContextState) :
    CodegenContextState :=
  if c.indent_level > 0 then { c with indent_level := c.indent_level - 1 }
  else c

/-- A call to one of the two indentation mutators. -/
inductive IndentOp where
  | inc
  | dec
deriving DecidableEq

/-- Apply a sequence of increment/decrement calls to a context state. -/
def apply_indent_ops (c : CodegenContextState) (ops : List IndentOp) :
    CodegenContextState :=
  ops.foldl
    (fun s op =>
      match op with
      | IndentOp.inc => codegen_context_increment_indent s
      | IndentOp.dec => codegen_context_decrement_indent s)
    c

/-! ### The driver: `main` of src/src/main.c -/

/-- Result of the option-parsing loop at the top of `main`. -/
inductive OptParse where
  | help
  | unknownOption (arg : String)
  | opts (verbose debug : Bool) (rest : List String)
deriving DecidableEq

/-- The `while (arg_index < argc && argv[arg_index][0] == '-')` loop:
`-v|--verbose` sets verbose, `-d|--debug` sets debug and verbose,
`-h|--help` prints usage and exits 0, any other dash argument is an
unknown option. -/
def parse_options (verbose debug : Bool) : List String → OptParse
  | [] => OptParse.opts verbose debug []
  | arg :: rest =>
    if arg.data.head? = some '-' then
      if arg = "-v" || arg = "--verbose" then parse_options true debug rest
      else if arg = "-d" || arg = "--debug" then parse_options true true rest
      else if arg = "-h" || arg = "--help" then OptParse.help
      else OptParse.unknownOption arg
    else OptParse.opts verbose debug (arg :: rest)

/-- The pipeline stages `main` can invoke, in source order.  The binding
resolver and type inferencer appear as stage names so that their absence
from every trace can be stated. -/
inductive Stage where
  | lexerCreate
  | parserCreate
  | parseProgram
  | codegenCreate
  | codegenGenerate
  | compileAndExecute
  | bindingResolve
  | typeInference
deriving DecidableEq

/-- The stage sequence of a fully successful compile-and-run invocation. -/
def pipelineStages : List Stage :=
  [Stage.lexerCreate, Stage.parserCreate, Stage.parseProgram,
   Stage.codegenCreate, Stage.codegenGenerate, Stage.compileAndExecute]

/-- The environment `main` runs against: success of `read_file`, of each
component creation, of parsing and C generation, and the exit status of
the host C compiler invocation (`codegen_compile_and_execute`). -/
structure MainEnv where
  read_ok : Bool
  arena_ok : Bool
  strings_ok : Bool
  diag_ok : Bool
  lexer_ok : Bool
  parser_ok : Bool
  parse_ok : Bool
  codegen_ok : Bool
  generate_ok : Bool
  exec_result : Int
deriving DecidableEq

/-- All stage flags of the environment at once: `read_file` through
`codegen_generate` succeed. -/
def all_stages_ok (env : MainEnv) : Bool :=
  env.read_ok && env.arena_ok && env.strings_ok && env.diag_ok &&
  env.lexer_ok && env.parser_ok && env.parse_ok && env.codegen_ok &&
  env.generate_ok

/-- `int main(int argc, char** argv)` of src/src/main.c: returns the
process exit code together with the trace of pipeline stages invoked.
With a second positional argument `main` writes the C file and stops;
without one it also invokes the host C compiler and runs the result. -/
def eshkol_main (argv : List String) (env : MainEnv) : Int × List Stage :=
  match parse_options false false argv with
  | OptParse.help => (0, [])
  | OptParse.unknownOption _ => (1, [])
  | OptParse.opts _ _ [] => (1, [])
  | OptParse.opts _ _ (_input :: rest) =>
    if !env.read_ok then (1, [])
    else if !env.arena_ok then (1, [])
    else if !env.strings_ok then (1, [])
    else if !env.diag_ok then (1, [])
    else if !env.lexer_ok then (1, [Stage.lexerCreate])
    else if !env.parser_ok then (1, [Stage.lexerCreate, Stage.parserCreate])
    else if !env.parse_ok then
      (1, [Stage.lexerCreate, Stage.parserCreate, Stage.parseProgram])
    else if !env.codegen_ok then
      (1, [Stage.lexerCreate, Stage.parserCreate, Stage.parseProgram,
           Stage.codegenCreate])
    else if !env.generate_ok then
      (1, [Stage.lexerCreate, Stage.parserCreate, Stage.parseProgram,
           Stage.codegenCreate, Stage.codegenGenerate])
    else
      match rest with
      | _ :: _ =>
        (0, [Stage.lexerCreate, Stage.parserCreate, Stage.parseProgram,
             Stage.codegenCreate, Stage.codegenGenerate])
      | [] =>
        if env.exec_result ≠ 0 then (1, pipelineStages)
        else (0, pipelineStages)

/-! ### Code generator: `codegen_generate_call` and the expression
generator

The `FILE*` output stream is a `List Char`; `fprintf` appends to it.
Each generator takes the stream written so far and returns the success
flag of the C function together with the stream after its writes (on
failure, the writes made before the failure point remain, exactly as
with a `FILE*`). -/

/-- Convert an emitted C fragment (written as a string literal) to the
character stream it adds to the output. -/
def lit (s : String) : List Char := s.data

/-- The fragment of the AST exercised by the call generator: integer
literals and identifiers (the leaves the expression generator handles),
calls, and a stand-in `unsupported` for any node variant without a case
in the generator's switch (which falls through to `return false`). -/
inductive AstNode where
  | intLit (v : Int)
  | ident (name : String)
  | call (callee : AstNode) (args : List AstNode)
  | unsupported
deriving Repr

mutual

/-- Structural weight of a node, used as the termination measure of the
generators. -/
def sizeE : AstNode → Nat
  | AstNode.intLit _ => 1
  | AstNode.ident _ => 1
  | AstNode.unsupported => 1
  | AstNode.call c as => 1 + sizeE c + sizeL as

/-- Structural weight of an argument list. -/
def sizeL : List AstNode → Nat
  | [] => 1
  | a :: t => 1 + sizeE a + sizeL t

end

/-- A single `fprintf(output, s)`: always succeeds, appends `s`. -/
def emitE (s : List Char) : List Char → Bool × List Char :=
  fun out => (true, out ++ s)

/-- The generator step that succeeds writing nothing. -/
def okE : List Char → Bool × List Char :=
  fun out => (true, out)

/-- The `return false` of an unhandled node: fails writing nothing. -/
def failE : List Char → Bool × List Char :=
  fun out => (false, out)

/-- `fprintf` the fragment `s`, then run `f`: the C pattern of a write
followed by a recursive generation. -/
def emitThen (s : List Char) (f : List Char → Bool × List Char) :
    List Char → Bool × List Char :=
  fun out => f (out ++ s)

/-- Run `f`; on failure return `false` at once (writing nothing more),
on success continue with `g`: the C pattern
`if (!codegen_generate_expression(...)) return false;`. -/
def seqE (f g : List Char → Bool × List Char) :
    List Char → Bool × List Char :=
  fun out =>
    match f out with
    | (true, o) => g o
    | (false, o) => (false, o)

mutual

/-- `codegen_generate_expression` (backend/codegen/expressions.c, shown
in the architecture document): integer literals print with `%ld`;
`AST_CALL` dispatches to `codegen_generate_call`; a node variant with no
case in the switch returns `false`.  Identifiers lower to a C variable
name (expressions.c is not among the sources; modelled from the spec:
the emitted name stands for the variable name synthesized from the
identifier). -/
def codegen_generate_expression : AstNode → List Char → Bool × List Char
  | AstNode.intLit v => emitE (lit (toString v))
  | AstNode.ident name => emitE (lit name)
  | AstNode.call callee args => codegen_generate_call callee args
  | AstNode.unsupported => failE
termination_by n => 100 * sizeE n
decreasing_by all_goals ((try simp only [sizeE, sizeL]); omega)

/-- `codegen_generate_call` (backend/codegen/calls.c): intrinsic dispatch
on an identifier callee — arithmetic and comparison operators, vector
operations, Scheme-compatibility routines, autodiff routines — and the
general call through the callee otherwise.  calls.c tests the operator
name down one if–else chain, each test also guarding the argument count;
the (name, arity) guards are pairwise disjoint, so the chain is rendered
here as: the three any-arity intrinsics, then the arity-guarded branches
keyed by argument shape (`genCallShaped`), in calls.c order inside each
group, with the emitted fragments taken verbatim from calls.c. -/
def codegen_generate_call : AstNode → List AstNode → List Char → Bool × List Char
  | AstNode.ident op, args =>
    if op = "vector" then genVectorIntrinsic args
    else if op = "string-append" then genStringAppendIntrinsic args
    else if op = "printf" then genPrintfIntrinsic args
    else genCallShaped op args
  | callee, args => genGeneralCall callee args
termination_by c as => 100 * (sizeE c + sizeL as) + 9
decreasing_by all_goals ((try simp only [sizeE, sizeL]); omega)

/-- The `vector` intrinsic: a `VectorF` literal built from the argument
expressions, closed with the argument count (`%zu`). -/
def genVectorIntrinsic (args : List AstNode) : List Char → Bool × List Char :=
  emitThen (lit ("vector_f_create_from_array(arena, (float[])\x7b"))
    (seqE (genArgs args)
      (emitE (lit ("\x7d, " ++ toString args.length ++ ")"))))
termination_by 100 * sizeL args + 7
decreasing_by all_goals ((try simp only [sizeE, sizeL]); omega)

/-- The `string-append` intrinsic: a statement expression concatenating
each argument into a stack buffer. -/
def genStringAppendIntrinsic (args : List AstNode) : List Char → Bool × List Char :=
  emitThen (lit ("(\x7b char buffer[1024] = \"\"; "))
    (seqE (genEach (lit ("strcat(buffer, ")) (lit ("); ")) args)
      (emitE (lit ("strdup(buffer); \x7d)"))))
termination_by 100 * sizeL args + 7
decreasing_by all_goals ((try simp only [sizeE, sizeL]); omega)

/-- The `printf` intrinsic: a direct `printf` of the arguments. -/
def genPrintfIntrinsic (args : List AstNode) : List Char → Bool × List Char :=
  emitThen (lit ("printf(")) (seqE (genArgs args) (emitE (lit (")"))))
termination_by 100 * sizeL args + 7
decreasing_by all_goals ((try simp only [sizeE, sizeL]); omega)

/-- The arity-guarded branches of calls.c's if–else chain, keyed by the
shape of the argument list (unary, binary, and ternary intrinsics; any
other shape falls through to the general call). -/
def genCallShaped : String → List AstNode → List Char → Bool × List Char
  | op, [a] => genCallUnary op a
  | op, [a, b] => genCallBinary op a b
  | op, [a, b, c] => genCallTernary op a b c
  | op, args => genGeneralCall (AstNode.ident op) args
termination_by op l => 100 * (1 + sizeL l) + 8
decreasing_by all_goals ((try simp only [sizeE, sizeL]); omega)

/-- The one-argument intrinsics, in calls.c order: unary minus, `norm`,
`display`, `number->string`. -/
def genCallUnary (op : String) (a : AstNode) : List Char → Bool × List Char :=
  if op = "-" then genUn (lit ("(-")) a (lit (")"))
  else if op = "norm" then genUn (lit ("vector_f_magnitude(")) a (lit (")"))
  else if op = "display" then genUn (lit ("printf(\"%s\\n\", ")) a (lit (")"))
  else if op = "number->string" then
    genUn (lit ("(\x7b char buffer[64]; snprintf(buffer, sizeof(buffer), \"%g\", "))
      a (lit ("); strdup(buffer); \x7d)"))
  else genGeneralCall (AstNode.ident op) [a]
termination_by 100 * (3 + sizeE a) + 7
decreasing_by all_goals ((try simp only [sizeE, sizeL]); omega)

/-- The two-argument arithmetic and comparison operators, in calls.c
order (`=` lowers to C `==`); other two-argument intrinsics continue in
`genCallBinaryMore`. -/
def genCallBinary (op : String) (a b : AstNode) : List Char → Bool × List Char :=
  if op = "+" then genBin (lit ("(")) a (lit (" + ")) b (lit (")"))
  else if op = "-" then genBin (lit ("(")) a (lit (" - ")) b (lit (")"))
  else if op = "*" then genBin (lit ("(")) a (lit (" * ")) b (lit (")"))
  else if op = "/" then genBin (lit ("(")) a (lit (" / ")) b (lit (")"))
  else if op = "<" then genBin (lit ("(")) a (lit (" < ")) b (lit (")"))
  else if op = ">" then genBin (lit ("(")) a (lit (" > ")) b (lit (")"))
  else if op = "<=" then genBin (lit ("(")) a (lit (" <= ")) b (lit (")"))
  else if op = ">=" then genBin (lit ("(")) a (lit (" >= ")) b (lit (")"))
  else if op = "=" then genBin (lit ("(")) a (lit (" == ")) b (lit (")"))
  else genCallBinaryMore op a b
termination_by 100 * (4 + sizeE a + sizeE b) + 7
decreasing_by all_goals ((try simp only [sizeE, sizeL]); omega)

/-- The two-argument vector and vector-calculus intrinsics, in calls.c
order. -/
def genCallBinaryMore (op : String) (a b : AstNode) : List Char → Bool × List Char :=
  if op = "v+" then
    genBin (lit ("vector_f_add(arena, ")) a (lit (", ")) b (lit (")"))
  else if op = "v-" then
    genBin (lit ("vector_f_sub(arena, ")) a (lit (", ")) b (lit (")"))
  else if op = "v*" then
    genBin (lit ("vector_f_mul_scalar(arena, ")) a (lit (", ")) b (lit (")"))
  else if op = "dot" then
    genBin (lit ("vector_f_dot(")) a (lit (", ")) b (lit (")"))
  else if op = "cross" then
    genBin (lit ("vector_f_cross(arena, ")) a (lit (", ")) b (lit (")"))
  else if op = "gradient" then
    genBin (lit ("compute_gradient(arena, ")) a (lit (", ")) b (lit (")"))
  else if op = "divergence" then
    genBin (lit ("compute_divergence(arena, ")) a (lit (", ")) b (lit (")"))
  else if op = "curl" then
    genBin (lit ("compute_curl(arena, ")) a (lit (", ")) b (lit (")"))
  else if op = "laplacian" then
    genBin (lit ("compute_laplacian(arena, ")) a (lit (", ")) b (lit (")"))
  else genCallBinaryAd op a b
termination_by 100 * (4 + sizeE a + sizeE b) + 6
decreasing_by all_goals ((try simp only [sizeE, sizeL]); omega)

/-- The two-argument autodiff intrinsics, `derivative`, and
`vector-ref`, in calls.c order. -/
def genCallBinaryAd (op : String) (a b : AstNode) : List Char → Bool × List Char :=
  if op = "autodiff-forward" then
    genBin (lit ("(\x7b float (*wrapper_func)(VectorF*) = (float (*)(VectorF*))"))
      a (lit ("; VectorF* vec_input = vector_f_create_from_array(arena, (float[])\x7b"))
      b (lit ("\x7d, 1); vector_f_get(compute_gradient_autodiff(arena, wrapper_func, vec_input), 0); \x7d)"))
  else if op = "autodiff-reverse" then
    genBin (lit ("(\x7b float (*wrapper_func)(VectorF*) = (float (*)(VectorF*))"))
      a (lit ("; VectorF* vec_input = vector_f_create_from_array(arena, (float[])\x7b"))
      b (lit ("\x7d, 1); vector_f_get(compute_gradient_reverse_mode(arena, wrapper_func, vec_input), 0); \x7d)"))
  else if op = "autodiff-forward-gradient" then
    genBin (lit ("(\x7b float (*wrapper_func)(VectorF*) = (float (*)(VectorF*))"))
      a (lit ("; compute_gradient_autodiff(arena, wrapper_func, "))
      b (lit ("); \x7d)"))
  else if op = "autodiff-reverse-gradient" then
    genBin (lit ("(\x7b float (*wrapper_func)(VectorF*) = (float (*)(VectorF*))"))
      a (lit ("; compute_gradient_reverse_mode(arena, wrapper_func, "))
      b (lit ("); \x7d)"))
  else if op = "autodiff-jacobian" then
    genBin (lit ("(\x7b VectorF* (*wrapper_func)(Arena*, VectorF*) = (VectorF* (*)(Arena*, VectorF*))"))
      a (lit ("; compute_jacobian(arena, wrapper_func, "))
      b (lit ("); \x7d)"))
  else if op = "autodiff-hessian" then
    genBin (lit ("(\x7b float (*wrapper_func)(VectorF*) = (float (*)(VectorF*))"))
      a (lit ("; compute_hessian(arena, wrapper_func, "))
      b (lit ("); \x7d)"))
  else if op = "derivative" then
    genBin (lit ("(\x7b float (*wrapper_func)(float) = (float (*)(float))"))
      a (lit ("; compute_nth_derivative(arena, wrapper_func, "))
      b (lit (", 1); \x7d)"))
  else if op = "vector-ref" then
    genBin (lit ("(")) a (lit ("->data[")) b (lit ("])"))
  else genGeneralCall (AstNode.ident op) [a, b]
termination_by 100 * (4 + sizeE a + sizeE b) + 5
decreasing_by all_goals ((try simp only [sizeE, sizeL]); omega)

/-- The three-argument intrinsic `matrix-ref`. -/
def genCallTernary (op : String) (a b c : AstNode) : List Char → Bool × List Char :=
  if op = "matrix-ref" then
    genTri (lit ("(")) a (lit ("[")) b (lit ("]->data[")) c (lit ("])"))
  else genGeneralCall (AstNode.ident op) [a, b, c]
termination_by 100 * (5 + sizeE a + sizeE b + sizeE c) + 7
decreasing_by all_goals ((try simp only [sizeE, sizeL]); omega)

/-- The regular-function-call path at the end of `codegen_generate_call`:
generate the callee, then the parenthesized comma-separated arguments. -/
def genGeneralCall (c : AstNode) (as : List AstNode) :
    List Char → Bool × List Char :=
  seqE (codegen_generate_expression c)
    (emitThen (lit ("(")) (seqE (genArgs as) (emitE (lit (")")))))
termination_by 100 * (sizeE c + sizeL as) + 4
decreasing_by all_goals ((try simp only [sizeE, sizeL]); omega)

/-- An intrinsic branch of the shape
`fprintf(s1); gen(a); fprintf(s2); gen(b); fprintf(s3);` with the
failure checks after each generation. -/
def genBin (s1 : List Char) (a : AstNode) (s2 : List Char) (b : AstNode)
    (s3 : List Char) : List Char → Bool × List Char :=
  emitThen s1
    (seqE (codegen_generate_expression a)
      (emitThen s2
        (seqE (codegen_generate_expression b) (emitE s3))))
termination_by 100 * (sizeE a + sizeE b) + 3
decreasing_by all_goals ((try simp only [sizeE, sizeL]); omega)

/-- An intrinsic branch of the shape `fprintf(s1); gen(a); fprintf(s2);`. -/
def genUn (s1 : List Char) (a : AstNode) (s2 : List Char) :
    List Char → Bool × List Char :=
  emitThen s1 (seqE (codegen_generate_expression a) (emitE s2))
termination_by 100 * sizeE a + 3
decreasing_by all_goals ((try simp only [sizeE, sizeL]); omega)

/-- An intrinsic branch with three generated operands (`matrix-ref`). -/
def genTri (s1 : List Char) (a : AstNode) (s2 : List Char) (b : AstNode)
    (s3 : List Char) (c : AstNode) (s4 : List Char) :
    List Char → Bool × List Char :=
  emitThen s1
    (seqE (codegen_generate_expression a)
      (emitThen s2
        (seqE (codegen_generate_expression b)
          (emitThen s3
            (seqE (codegen_generate_expression c) (emitE s4))))))
termination_by 100 * (sizeE a + sizeE b + sizeE c) + 3
decreasing_by all_goals ((try simp only [sizeE, sizeL]); omega)

/-- The per-argument loop of `string-append`: for each argument,
`fprintf(s1); gen(arg); fprintf(s2);` with the failure check after the
generation. -/
def genEach (s1 s2 : List Char) : List AstNode → List Char → Bool × List Char
  | [] => okE
  | a :: rest =>
    seqE (emitThen s1 (codegen_generate_expression a))
      (emitThen s2 (genEach s1 s2 rest))
termination_by l => 100 * sizeL l + 2
decreasing_by all_goals ((try simp only [sizeE, sizeL]); omega)

/-- The argument loop `for (i …) { if (i > 0) fprintf(", "); gen(arg); }`:
the comma-separated argument list. -/
def genArgs : List AstNode → List Char → Bool × List Char
  | [] => okE
  | a :: rest => seqE (codegen_generate_expression a) (genArgsTail rest)
termination_by l => 100 * sizeL l + 2
decreasing_by all_goals ((try simp only [sizeE, sizeL]); omega)

/-- The arguments after the first: each preceded by `", "`. -/
def genArgsTail : List AstNode → List Char → Bool × List Char
  | [] => okE
  | a :: rest =>
    seqE (emitThen (lit (", ")) (codegen_generate_expression a))
      (genArgsTail rest)
termination_by l => 100 * sizeL l + 1
decreasing_by all_goals ((try simp only [sizeE, sizeL]); omega)

end
/-- A generator step `f` is output-determined when there are a flag and a
fragment such that, from every prior stream, `f` returns that flag and
appends exactly that fragment. -/
def Emits (f : List Char → Bool × List Char) : Prop :=
  ∃ b : Bool, ∃ d : List Char, ∀ out : List Char, f out = (b, out ++ d)

/-- The spaced C operator fragment the intrinsic branch places between
the two operands of each built-in arithmetic or comparison operator
(`=` is emitted as C `==`). -/
def cOpSym : String → String
  | "+" => " + "
  | "-" => " - "
  | "*" => " * "
  | "/" => " / "
  | "<" => " < "
  | ">" => " > "
  | "<=" => " <= "
  | ">=" => " >= "
  | "=" => " == "
  | _ => ""

/-! ## Theorems -/

/-! ### Generator output is determined by the node alone -/

theorem sizeE_pos (n : AstNode) : 0 < sizeE n := by
  cases n <;> simp [sizeE]

theorem sizeE_lt_of_mem {a : AstNode} {l : List AstNode} (h : a ∈ l) :
    sizeE a < sizeL l := by
  induction l with
  | nil => cases h
  | cons x t ih =>
    cases h with
    | head =>
      simp only [sizeL]
      omega
    | tail _ h =>
      have := ih h
      simp only [sizeL]
      omega

theorem emits_emitE (s : List Char) : Emits (emitE s) :=
  ⟨true, s, fun _ => rfl⟩

theorem emits_okE : Emits okE :=
  ⟨true, [], fun out => by simp [okE]⟩

theorem emits_failE : Emits failE :=
  ⟨false, [], fun out => by simp [failE]⟩

theorem emits_emitThen (s : List Char) (f : List Char → Bool × List Char)
    (hf : Emits f) : Emits (emitThen s f) := by
  obtain ⟨b, d, h⟩ := hf
  exact ⟨b, s ++ d, fun out => by simp [emitThen, h, List.append_assoc]⟩

theorem emits_seqE (f g : List Char → Bool × List Char)
    (hf : Emits f) (hg : Emits g) : Emits (seqE f g) := by
  obtain ⟨bf, df, hf⟩ := hf
  obtain ⟨bg, dg, hg⟩ := hg
  cases bf with
  | false => exact ⟨false, df, fun out => by simp [seqE, hf]⟩
  | true =>
    exact ⟨bg, df ++ dg, fun out => by simp [seqE, hf, hg, List.append_assoc]⟩

theorem emits_genBin (s1 : List Char) (a : AstNode) (s2 : List Char)
    (b : AstNode) (s3 : List Char)
    (ha : Emits (codegen_generate_expression a))
    (hb : Emits (codegen_generate_expression b)) :
    Emits (genBin s1 a s2 b s3) := by
  simp only [genBin]
  exact emits_emitThen _ _ (emits_seqE _ _ ha
    (emits_emitThen _ _ (emits_seqE _ _ hb (emits_emitE _))))

theorem emits_genUn (s1 : List Char) (a : AstNode) (s2 : List Char)
    (ha : Emits (codegen_generate_expression a)) :
    Emits (genUn s1 a s2) := by
  simp only [genUn]
  exact emits_emitThen _ _ (emits_seqE _ _ ha (emits_emitE _))

theorem emits_genTri (s1 : List Char) (a : AstNode) (s2 : List Char)
    (b : AstNode) (s3 : List Char) (c : AstNode) (s4 : List Char)
    (ha : Emits (codegen_generate_expression a))
    (hb : Emits (codegen_generate_expression b))
    (hc : Emits (codegen_generate_expression c)) :
    Emits (genTri s1 a s2 b s3 c s4) := by
  simp only [genTri]
  exact emits_emitThen _ _ (emits_seqE _ _ ha
    (emits_emitThen _ _ (emits_seqE _ _ hb
      (emits_emitThen _ _ (emits_seqE _ _ hc (emits_emitE _))))))

theorem emits_genArgsTail (l : List AstNode)
    (h : ∀ a ∈ l, Emits (codegen_generate_expression a)) :
    Emits (genArgsTail l) := by
  induction l with
  | nil =>
    simp only [genArgsTail]
    exact emits_okE
  | cons a t ih =>
    simp only [genArgsTail]
    exact emits_seqE _ _ (emits_emitThen _ _ (h a (by simp)))
      (ih fun x hx => h x (by simp [hx]))

theorem emits_genArgs (l : List AstNode)
    (h : ∀ a ∈ l, Emits (codegen_generate_expression a)) :
    Emits (genArgs l) := by
  cases l with
  | nil =>
    simp only [genArgs]
    exact emits_okE
  | cons a t =>
    simp only [genArgs]
    exact emits_seqE _ _ (h a (by simp))
      (emits_genArgsTail t fun x hx => h x (by simp [hx]))

theorem emits_genEach (s1 s2 : List Char) (l : List AstNode)
    (h : ∀ a ∈ l, Emits (codegen_generate_expression a)) :
    Emits (genEach s1 s2 l) := by
  induction l with
  | nil =>
    simp only [genEach]
    exact emits_okE
  | cons a t ih =>
    simp only [genEach]
    exact emits_seqE _ _ (emits_emitThen _ _ (h a (by simp)))
      (emits_emitThen _ _ (ih fun x hx => h x (by simp [hx])))

theorem emits_genGeneralCall (c : AstNode) (as : List AstNode)
    (hc : Emits (codegen_generate_expression c))
    (has : ∀ a ∈ as, Emits (codegen_generate_expression a)) :
    Emits (genGeneralCall c as) := by
  simp only [genGeneralCall]
  exact emits_seqE _ _ hc
    (emits_emitThen _ _ (emits_seqE _ _ (emits_genArgs as has) (emits_emitE _)))

theorem emits_if (P : Prop) [Decidable P]
    (f g : List Char → Bool × List Char)
    (hf : Emits f) (hg : Emits g) : Emits (if P then f else g) := by
  by_cases h : P
  · simpa [h] using hf
  · simpa [h] using hg

theorem emits_ident_expr (op : String) :
    Emits (codegen_generate_expression (AstNode.ident op)) := by
  simp only [codegen_generate_expression]
  exact emits_emitE _

theorem emits_genCallUnary (op : String) (a : AstNode)
    (ha : Emits (codegen_generate_expression a)) :
    Emits (genCallUnary op a) := by
  simp only [genCallUnary]
  repeat' apply emits_if
  all_goals
    first
    | exact emits_genUn _ _ _ ha
    | exact emits_genGeneralCall _ _ (emits_ident_expr op)
        (by intro x hx; fin_cases hx <;> assumption)

theorem emits_genCallBinaryAd (op : String) (a b : AstNode)
    (ha : Emits (codegen_generate_expression a))
    (hb : Emits (codegen_generate_expression b)) :
    Emits (genCallBinaryAd op a b) := by
  simp only [genCallBinaryAd]
  repeat' apply emits_if
  all_goals
    first
    | exact emits_genBin _ _ _ _ _ ha hb
    | exact emits_genGeneralCall _ _ (emits_ident_expr op)
        (by intro x hx; fin_cases hx <;> assumption)

theorem emits_genCallBinaryMore (op : String) (a b : AstNode)
    (ha : Emits (codegen_generate_expression a))
    (hb : Emits (codegen_generate_expression b)) :
    Emits (genCallBinaryMore op a b) := by
  simp only [genCallBinaryMore]
  repeat' apply emits_if
  all_goals
    first
    | exact emits_genBin _ _ _ _ _ ha hb
    | exact emits_genCallBinaryAd op a b ha hb

theorem emits_genCallBinary (op : String) (a b : AstNode)
    (ha : Emits (codegen_generate_expression a))
    (hb : Emits (codegen_generate_expression b)) :
    Emits (genCallBinary op a b) := by
  simp only [genCallBinary]
  repeat' apply emits_if
  all_goals
    first
    | exact emits_genBin _ _ _ _ _ ha hb
    | exact emits_genCallBinaryMore op a b ha hb

theorem emits_genCallTernary (op : String) (a b c : AstNode)
    (ha : Emits (codegen_generate_expression a))
    (hb : Emits (codegen_generate_expression b))
    (hc : Emits (codegen_generate_expression c)) :
    Emits (genCallTernary op a b c) := by
  simp only [genCallTernary]
  repeat' apply emits_if
  all_goals
    first
    | exact emits_genTri _ _ _ _ _ _ _ ha hb hc
    | exact emits_genGeneralCall _ _ (emits_ident_expr op)
        (by intro x hx; fin_cases hx <;> assumption)

theorem emits_genVectorIntrinsic (args : List AstNode)
    (has : ∀ a ∈ args, Emits (codegen_generate_expression a)) :
    Emits (genVectorIntrinsic args) := by
  simp only [genVectorIntrinsic]
  exact emits_emitThen _ _
    (emits_seqE _ _ (emits_genArgs args has) (emits_emitE _))

theorem emits_genStringAppendIntrinsic (args : List AstNode)
    (has : ∀ a ∈ args, Emits (codegen_generate_expression a)) :
    Emits (genStringAppendIntrinsic args) := by
  simp only [genStringAppendIntrinsic]
  exact emits_emitThen _ _
    (emits_seqE _ _ (emits_genEach _ _ args has) (emits_emitE _))

theorem emits_genPrintfIntrinsic (args : List AstNode)
    (has : ∀ a ∈ args, Emits (codegen_generate_expression a)) :
    Emits (genPrintfIntrinsic args) := by
  simp only [genPrintfIntrinsic]
  exact emits_emitThen _ _
    (emits_seqE _ _ (emits_genArgs args has) (emits_emitE _))

theorem emits_genCallShaped (op : String) (as : List AstNode)
    (has : ∀ a ∈ as, Emits (codegen_generate_expression a)) :
    Emits (genCallShaped op as) := by
  rcases as with _ | ⟨a, _ | ⟨b, _ | ⟨c, _ | ⟨d, t⟩⟩⟩⟩ <;>
      simp only [genCallShaped]
  · exact emits_genGeneralCall _ _ (emits_ident_expr op) has
  · exact emits_genCallUnary op a (has _ (by simp))
  · exact emits_genCallBinary op a b (has _ (by simp)) (has _ (by simp))
  · exact emits_genCallTernary op a b c (has _ (by simp)) (has _ (by simp))
      (has _ (by simp))
  · exact emits_genGeneralCall _ _ (emits_ident_expr op) has

theorem emits_genCall (c : AstNode) (as : List AstNode)
    (hc : Emits (codegen_generate_expression c))
    (has : ∀ a ∈ as, Emits (codegen_generate_expression a)) :
    Emits (codegen_generate_call c as) := by
  cases c with
  | ident op =>
    simp only [codegen_generate_call]
    repeat' apply emits_if
    · exact emits_genVectorIntrinsic as has
    · exact emits_genStringAppendIntrinsic as has
    · exact emits_genPrintfIntrinsic as has
    · exact emits_genCallShaped op as has
  | intLit v =>
    simp only [codegen_generate_call]
    exact emits_genGeneralCall _ _ hc has
  | call c1 as1 =>
    simp only [codegen_generate_call]
    exact emits_genGeneralCall _ _ hc has
  | unsupported =>
    simp only [codegen_generate_call]
    exact emits_genGeneralCall _ _ hc has

theorem emits_expr_bounded :
    ∀ m n, sizeE n ≤ m → Emits (codegen_generate_expression n) := by
  intro m
  induction m with
  | zero =>
    intro n h
    have := sizeE_pos n
    omega
  | succ m ih =>
    intro n h
    cases n with
    | intLit v =>
      simp only [codegen_generate_expression]
      exact emits_emitE _
    | ident s =>
      simp only [codegen_generate_expression]
      exact emits_emitE _
    | unsupported =>
      simp only [codegen_generate_expression]
      exact emits_failE
    | call c as =>
      have hs : sizeE (AstNode.call c as) = 1 + sizeE c + sizeL as := by
        simp [sizeE]
      have hc : Emits (codegen_generate_expression c) := by
        refine ih c ?_
        have := sizeE_pos c
        omega
      have has : ∀ a ∈ as, Emits (codegen_generate_expression a) := by
        intro a ha
        refine ih a ?_
        have := sizeE_lt_of_mem ha
        omega
      simp only [codegen_generate_expression]
      exact emits_genCall c as hc has

theorem codegen_generate_expression_emits (n : AstNode) :
    Emits (codegen_generate_expression n) :=
  emits_expr_bounded (sizeE n) n le_rfl

/-- Every run of the expression generator returns the flag, and appends
the fragment, that a run from the empty stream produces. -/
theorem codegen_generate_expression_run (n : AstNode) (out : List Char) :
    codegen_generate_expression n out
      = ((codegen_generate_expression n []).1,
         out ++ (codegen_generate_expression n []).2) := by
  obtain ⟨b, d, h⟩ := codegen_generate_expression_emits n
  rw [h out, h []]
  simp

theorem codegen_generate_expression_append (n : AstNode) (d : List Char)
    (h : codegen_generate_expression n [] = (true, d)) :
    ∀ out, codegen_generate_expression n out = (true, out ++ d) := by
  intro out
  rw [codegen_generate_expression_run n out, h]

/-- Running a `genBin`-shaped intrinsic branch when both operand
generations succeed. -/
theorem genBin_run (s1 : List Char) (a : AstNode) (s2 : List Char)
    (b : AstNode) (s3 : List Char) (out da db : List Char)
    (ha : codegen_generate_expression a [] = (true, da))
    (hb : codegen_generate_expression b [] = (true, db)) :
    genBin s1 a s2 b s3 out
      = (true, out ++ s1 ++ da ++ s2 ++ db ++ s3) := by
  simp only [genBin, emitThen, seqE, emitE,
    codegen_generate_expression_append a da ha,
    codegen_generate_expression_append b db hb]

/-- Running a `genUn`-shaped intrinsic branch when the operand
generation succeeds. -/
theorem genUn_run (s1 : List Char) (a : AstNode) (s2 : List Char)
    (out da : List Char)
    (ha : codegen_generate_expression a [] = (true, da)) :
    genUn s1 a s2 out = (true, out ++ s1 ++ da ++ s2) := by
  simp only [genUn, emitThen, seqE, emitE,
    codegen_generate_expression_append a da ha]

/-! ### C1: operator intrinsic dispatch -/

/-- C1: for a `Call` whose callee is an identifier naming one of the nine
built-in arithmetic/comparison operators applied to exactly two
arguments, `codegen_generate_call` emits the parenthesized infix C
expression (with `=` emitted as `==`); for any other argument count on
`+`, `*`, `/` and the comparison operators — one-argument `-` being the
sole unary exception, which emits prefix `(-…)` — no intrinsic branch
fires and the call is emitted as a general call through the callee. -/
theorem codegen_generate_call_operator_dispatch (op : String)
    (hop : op ∈ (["+", "-", "*", "/", "<", ">", "<=", ">=", "="] : List String)) :
    (∀ (a b : AstNode) (out da db : List Char),
       codegen_generate_expression a [] = (true, da) →
       codegen_generate_expression b [] = (true, db) →
       codegen_generate_call (AstNode.ident op) [a, b] out
         = (true, out ++ lit ("(") ++ da ++ lit (cOpSym op) ++ db ++ lit (")")))
    ∧ (∀ (args : List AstNode) (out : List Char),
       args.length ≠ 2 → ¬(op = "-" ∧ args.length = 1) →
       codegen_generate_call (AstNode.ident op) args out
         = genGeneralCall (AstNode.ident op) args out)
    ∧ (op = "-" → ∀ (a : AstNode) (out da : List Char),
       codegen_generate_expression a [] = (true, da) →
       codegen_generate_call (AstNode.ident op) [a] out
         = (true, out ++ lit ("(-") ++ da ++ lit (")"))) := by
  refine ⟨?_, ?_, ?_⟩
  · intro a b out da db ha hb
    fin_cases hop <;>
      simp only [codegen_generate_call, genCallShaped, genCallBinary,
        genCallBinaryMore, genCallBinaryAd, cOpSym, String.reduceEq,
        reduceIte] <;>
      rw [genBin_run _ _ _ _ _ _ _ _ ha hb]
  · intro args out h1 h2
    fin_cases hop <;>
      rcases args with _ | ⟨a, _ | ⟨b, _ | ⟨c, _ | ⟨d, t⟩⟩⟩⟩ <;>
      first
      | (refine absurd ?_ h1; rfl)
      | (refine absurd ⟨?_, ?_⟩ h2 <;> rfl)
      | (simp only [codegen_generate_call, genCallShaped, genCallUnary,
          genCallBinary, genCallBinaryMore, genCallBinaryAd,
          genCallTernary, String.reduceEq, reduceIte])
  · intro hm a out da ha
    subst hm
    simp only [codegen_generate_call, genCallShaped, genCallUnary,
      String.reduceEq, reduceIte]
    rw [genUn_run _ _ _ _ _ ha]

/-- Witness for C1 at `op = "+"` on arguments `x` and `y`. -/
theorem codegen_generate_call_operator_dispatch_witness :
    ("+" ∈ (["+", "-", "*", "/", "<", ">", "<=", ">=", "="] : List String)) ∧
    codegen_generate_call (AstNode.ident ("+"))
        [AstNode.ident ("x"), AstNode.ident ("y")] []
      = (true, [] ++ lit ("(") ++ lit ("x") ++ lit (cOpSym ("+"))
          ++ lit ("y") ++ lit (")")) :=
  ⟨by decide,
   (codegen_generate_call_operator_dispatch ("+") (by decide)).1
     (AstNode.ident ("x")) (AstNode.ident ("y")) [] (lit ("x")) (lit ("y"))
     (by simp [codegen_generate_expression, emitE])
     (by simp [codegen_generate_expression, emitE])⟩

/-! ### C2: partial output on failure -/

/-- C2 counterexample: generating `(+ x <unsupported>)` fails, yet the
stream already holds the partial fragment `"(x + "` — the output is not
what it was before generation of the node began. -/
theorem codegen_output_written_before_failure :
    codegen_generate_expression
        (AstNode.call (AstNode.ident ("+"))
          [AstNode.ident ("x"), AstNode.unsupported]) []
      = (false, lit ("(x + "))
    ∧ lit ("(x + ") ≠ ([] : List Char) := by
  constructor
  · simp only [codegen_generate_expression, codegen_generate_call,
      genCallShaped, genCallBinary, genBin, emitThen, seqE, emitE, failE,
      lit, String.reduceEq, reduceIte]
    decide
  · decide

/-- C2 as amended: code generation only ever appends to the output
stream — on failure the stream keeps everything written before the node
plus the (possibly nonempty) fragment written before the failure point,
and nothing is written after the failure. -/
theorem codegen_output_append_only (n : AstNode) (out : List Char) :
    ∃ d : List Char, (codegen_generate_expression n out).2 = out ++ d := by
  obtain ⟨b, d, h⟩ := codegen_generate_expression_emits n
  rw [h out]
  exact ⟨d, rfl⟩

/-! ### C7: deterministic (idempotent) lowering -/

/-- C7: code generation is deterministic — two runs of the generator on
the same node, from any two streams (in particular, two runs from the
same context state), return the same success flag and append the same
bytes. -/
theorem codegen_idempotent_lowering (n : AstNode) (out1 out2 : List Char) :
    (codegen_generate_expression n out1).1
      = (codegen_generate_expression n out2).1
    ∧ ∃ d : List Char,
        (codegen_generate_expression n out1).2 = out1 ++ d
        ∧ (codegen_generate_expression n out2).2 = out2 ++ d := by
  obtain ⟨b, d, h⟩ := codegen_generate_expression_emits n
  rw [h out1, h out2]
  exact ⟨rfl, d, rfl, rfl⟩

/-! ### C8: the autodiff-forward intrinsic -/

/-- C8: a call `(autodiff-forward f x)` lowers to a statement expression
that casts the first argument to a `float (*)(VectorF*)` function
pointer, builds a `VectorF` of length 1 holding the second argument,
passes it to `compute_gradient_autodiff`, and extracts element 0 of the
resulting gradient vector as the expression's value. -/
theorem codegen_autodiff_forward_lowering (f x : AstNode)
    (df dx out : List Char)
    (hf : codegen_generate_expression f [] = (true, df))
    (hx : codegen_generate_expression x [] = (true, dx)) :
    codegen_generate_call (AstNode.ident ("autodiff-forward")) [f, x] out
      = (true, out
          ++ lit ("(\x7b float (*wrapper_func)(VectorF*) = (float (*)(VectorF*))")
          ++ df
          ++ lit ("; VectorF* vec_input = vector_f_create_from_array(arena, (float[])\x7b")
          ++ dx
          ++ lit ("\x7d, 1); vector_f_get(compute_gradient_autodiff(arena, wrapper_func, vec_input), 0); \x7d)")) := by
  simp only [codegen_generate_call, genCallShaped, genCallBinary,
    genCallBinaryMore, genCallBinaryAd, String.reduceEq, reduceIte]
  rw [genBin_run _ _ _ _ _ _ _ _ hf hx]

/-- Witness for C8 on the call `(autodiff-forward f x)` with identifier
arguments. -/
theorem codegen_autodiff_forward_lowering_witness :
    codegen_generate_call (AstNode.ident ("autodiff-forward"))
        [AstNode.ident ("f"), AstNode.ident ("x")] []
      = (true, []
          ++ lit ("(\x7b float (*wrapper_func)(VectorF*) = (float (*)(VectorF*))")
          ++ lit ("f")
          ++ lit ("; VectorF* vec_input = vector_f_create_from_array(arena, (float[])\x7b")
          ++ lit ("x")
          ++ lit ("\x7d, 1); vector_f_get(compute_gradient_autodiff(arena, wrapper_func, vec_input), 0); \x7d)")) :=
  codegen_autodiff_forward_lowering (AstNode.ident ("f"))
    (AstNode.ident ("x")) (lit ("f")) (lit ("x")) []
    (by simp [codegen_generate_expression, emitE])
    (by simp [codegen_generate_expression, emitE])

/-! ### C9: arena_alloc accounting -/

/-- C9: for sizes greater than zero, a successful `arena_alloc` rounds
the size up to the next multiple of 8 and bumps the block it allocates
from, the arena's `total_used`, and `allocation_count` by exactly that
amount; when the current block lacks room the new current block has size
`max(2 * old size, rounded size)` and its `used` becomes exactly the
rounded size; `arena_alloc` with size 0 returns `NULL` and leaves the
arena unchanged. -/
theorem arena_alloc_spec (arena : CArena) (size : Nat) (malloc_ok : Bool) :
    (arena_alloc arena 0 malloc_ok = (AllocResult.nullPtr, arena))
    ∧ (∀ (off : Nat) (a : CArena), 0 < size →
       arena_alloc arena size malloc_ok = (AllocResult.ptr off, a) →
       (8 ∣ ((size + 7) / 8) * 8
        ∧ size ≤ ((size + 7) / 8) * 8
        ∧ ((size + 7) / 8) * 8 < size + 8)
       ∧ a.total_used = arena.total_used + ((size + 7) / 8) * 8
       ∧ a.allocation_count = arena.allocation_count + 1
       ∧ (if arena.current.bused + ((size + 7) / 8) * 8 ≤ arena.current.bsize
          then a.current.bused = arena.current.bused + ((size + 7) / 8) * 8
               ∧ a.current.bsize = arena.current.bsize
               ∧ off = arena.current.bused
          else a.current.bused = ((size + 7) / 8) * 8
               ∧ a.current.bsize
                   = max (arena.current.bsize * 2) (((size + 7) / 8) * 8)
               ∧ off = 0)) := by
  constructor
  · simp [arena_alloc]
  · intro off a hpos heq
    have hz : size ≠ 0 := by omega
    refine ⟨⟨⟨(size + 7) / 8, by omega⟩, by omega, by omega⟩, ?_⟩
    simp only [arena_alloc] at heq
    rw [if_neg hz] at heq
    by_cases hroom :
        arena.current.bused + (size + 7) / 8 * 8 > arena.current.bsize
    · rw [if_pos hroom] at heq
      cases malloc_ok with
      | false => simp at heq
      | true =>
        rw [if_pos rfl] at heq
        simp only [Prod.mk.injEq, AllocResult.ptr.injEq] at heq
        obtain ⟨h1, h2⟩ := heq
        subst h2
        rw [if_neg (show ¬(arena.current.bused + ((size + 7) / 8) * 8
            ≤ arena.current.bsize) from by omega)]
        refine ⟨rfl, rfl, ?_, ?_, by omega⟩
        · show 0 + (size + 7) / 8 * 8 = (size + 7) / 8 * 8
          omega
        · show (if arena.current.bsize * 2 < (size + 7) / 8 * 8
                then (size + 7) / 8 * 8 else arena.current.bsize * 2)
              = max (arena.current.bsize * 2) (((size + 7) / 8) * 8)
          split_ifs <;> omega
    · rw [if_neg hroom] at heq
      simp only [Prod.mk.injEq, AllocResult.ptr.injEq] at heq
      obtain ⟨h1, h2⟩ := heq
      subst h2
      rw [if_pos (show arena.current.bused + ((size + 7) / 8) * 8
          ≤ arena.current.bsize from by omega)]
      exact ⟨rfl, rfl, rfl, rfl, by omega⟩

/-- Witness for C9: allocating 5 bytes from a fresh 1024-byte block
consumes 8 aligned bytes at offset 0. -/
theorem arena_alloc_spec_witness :
    (0 : Nat) < 5
    ∧ arena_alloc ⟨⟨1024, 0⟩, [], 0, 0, 1024⟩ 5 true
        = (AllocResult.ptr 0, ⟨⟨1024, 8⟩, [], 8, 1, 1024⟩)
    ∧ ((8 ∣ ((5 + 7) / 8) * 8
        ∧ 5 ≤ ((5 + 7) / 8) * 8
        ∧ ((5 + 7) / 8) * 8 < 5 + 8)
       ∧ (⟨⟨1024, 8⟩, [], 8, 1, 1024⟩ : CArena).total_used
           = (⟨⟨1024, 0⟩, [], 0, 0, 1024⟩ : CArena).total_used
             + ((5 + 7) / 8) * 8
       ∧ (⟨⟨1024, 8⟩, [], 8, 1, 1024⟩ : CArena).allocation_count
           = (⟨⟨1024, 0⟩, [], 0, 0, 1024⟩ : CArena).allocation_count + 1
       ∧ (if (⟨⟨1024, 0⟩, [], 0, 0, 1024⟩ : CArena).current.bused
              + ((5 + 7) / 8) * 8
              ≤ (⟨⟨1024, 0⟩, [], 0, 0, 1024⟩ : CArena).current.bsize
          then (⟨⟨1024, 8⟩, [], 8, 1, 1024⟩ : CArena).current.bused
                 = (⟨⟨1024, 0⟩, [], 0, 0, 1024⟩ : CArena).current.bused
                   + ((5 + 7) / 8) * 8
               ∧ (⟨⟨1024, 8⟩, [], 8, 1, 1024⟩ : CArena).current.bsize
                   = (⟨⟨1024, 0⟩, [], 0, 0, 1024⟩ : CArena).current.bsize
               ∧ 0 = (⟨⟨1024, 0⟩, [], 0, 0, 1024⟩ : CArena).current.bused
          else (⟨⟨1024, 8⟩, [], 8, 1, 1024⟩ : CArena).current.bused
                 = ((5 + 7) / 8) * 8
               ∧ (⟨⟨1024, 8⟩, [], 8, 1, 1024⟩ : CArena).current.bsize
                   = max ((⟨⟨1024, 0⟩, [], 0, 0, 1024⟩ : CArena).current.bsize * 2)
                       (((5 + 7) / 8) * 8)
               ∧ 0 = 0)) :=
  ⟨by decide, by decide,
   (arena_alloc_spec ⟨⟨1024, 0⟩, [], 0, 0, 1024⟩ 5 true).2 0
     ⟨⟨1024, 8⟩, [], 8, 1, 1024⟩ (by decide) (by decide)⟩

/-! ### C10: the indentation counter is never negative -/

theorem indent_nonneg_invariant (ops : List IndentOp)
    (c : CodegenContextState) (h : 0 ≤ c.indent_level) :
    0 ≤ (apply_indent_ops c ops).indent_level := by
  induction ops generalizing c with
  | nil => simpa [apply_indent_ops] using h
  | cons op rest ih =>
    cases op with
    | inc =>
      refine ih _ ?_
      simp only [codegen_context_increment_indent]
      omega
    | dec =>
      refine ih _ ?_
      simp only [codegen_context_decrement_indent]
      split_ifs with hgt
      · show 0 ≤ c.indent_level - 1
        omega
      · exact h

/-- C10: `codegen_context_create` starts the indentation level at 0,
`codegen_context_increment_indent` adds one, and
`codegen_context_decrement_indent` at level 0 is a no-op, so every
sequence of increments and decrements keeps `indent_level ≥ 0`. -/
theorem indent_level_never_negative (ops : List IndentOp) :
    codegen_context_create_state.indent_level = 0
    ∧ 0 ≤ (apply_indent_ops codegen_context_create_state ops).indent_level :=
  ⟨rfl, indent_nonneg_invariant ops codegen_context_create_state (by simp [codegen_context_create_state])⟩

/-! ### C6: binding ids are unique and strictly increasing -/

theorem create_binding_next (sys : BindingSystem)
    (scope_id name flags : Nat) (alloc_ok : Bool) :
    (binding_system_create_binding sys scope_id name flags alloc_ok).2.next_binding_id
      = (sys.next_binding_id + 1) % UINT64_MOD
    ∧ ∀ id, (binding_system_create_binding sys scope_id name flags alloc_ok).1
        = some id → id = sys.next_binding_id := by
  simp only [binding_system_create_binding]
  split_ifs <;> simp

theorem run_create_bindings_lb (calls : List (Nat × Nat × Nat × Bool)) :
    ∀ sys : BindingSystem,
      sys.next_binding_id + calls.length ≤ UINT64_MOD →
      (∀ x ∈ run_create_bindings sys calls, sys.next_binding_id ≤ x)
      ∧ (run_create_bindings sys calls).Pairwise (· < ·) := by
  induction calls with
  | nil =>
    intro sys h
    simp [run_create_bindings]
  | cons cl rest ih =>
    intro sys h
    obtain ⟨sid, nm, fl, ok⟩ := cl
    obtain ⟨hnext, hid⟩ := create_binding_next sys sid nm fl ok
    rcases hcall : binding_system_create_binding sys sid nm fl ok with ⟨idOpt, sys'⟩
    have hnext' : sys'.next_binding_id = (sys.next_binding_id + 1) % UINT64_MOD := by
      rw [hcall] at hnext
      exact hnext
    by_cases hwrap : sys.next_binding_id + 1 = UINT64_MOD
    · have hlen : rest.length = 0 := by
        simp only [List.length_cons] at h
        omega
      have hrest : rest = [] := List.length_eq_zero.mp hlen
      subst hrest
      cases idOpt with
      | none => simp [run_create_bindings, hcall]
      | some id =>
        have hid2 : id = sys.next_binding_id := by
          apply hid
          rw [hcall]
        subst hid2
        simp [run_create_bindings, hcall]
    · have hlt : sys.next_binding_id + 1 < UINT64_MOD := by
        simp only [List.length_cons] at h
        omega
      have hnext'' : sys'.next_binding_id = sys.next_binding_id + 1 := by
        rw [hnext']
        exact Nat.mod_eq_of_lt hlt
      have hrest : sys'.next_binding_id + rest.length ≤ UINT64_MOD := by
        simp only [List.length_cons] at h
        omega
      obtain ⟨ihlb, ihpw⟩ := ih sys' hrest
      cases idOpt with
      | none =>
        simp only [run_create_bindings, hcall]
        refine ⟨fun x hx => ?_, ihpw⟩
        have := ihlb x hx
        omega
      | some id =>
        have hid' : id = sys.next_binding_id := by
          apply hid
          rw [hcall]
        subst hid'
        simp only [run_create_bindings, hcall]
        constructor
        · intro x hx
          rcases List.mem_cons.mp hx with rfl | hx2
          · omega
          · have := ihlb x hx2
            omega
        · refine List.Pairwise.cons ?_ ihpw
          intro x hx
          have := ihlb x hx
          omega

/-- C6: the binding ids returned by successive successful calls to
`binding_system_create_binding` are pairwise distinct and strictly
increasing in call order (the id counter only moves forward, even across
failed calls). -/
theorem binding_ids_strictly_increasing (sys : BindingSystem)
    (calls : List (Nat × Nat × Nat × Bool))
    (h : sys.next_binding_id + calls.length ≤ UINT64_MOD) :
    (run_create_bindings sys calls).Pairwise (· < ·)
    ∧ (run_create_bindings sys calls).Nodup := by
  obtain ⟨_, hpw⟩ := run_create_bindings_lb calls sys h
  exact ⟨hpw, hpw.imp Nat.ne_of_lt⟩

/-- Witness for C6: four calls (the third with a failing resize
allocation) from a fresh system yield the strictly increasing ids
`[0, 1, 3]`. -/
theorem binding_ids_strictly_increasing_witness :
    (⟨0, [], [], [], [], 0⟩ : BindingSystem).next_binding_id
        + ([(0, 0, 0, true), (1, 1, 0, true), (2, 2, 0, false),
            (3, 3, 0, true)] : List (Nat × Nat × Nat × Bool)).length
      ≤ UINT64_MOD
    ∧ ((run_create_bindings ⟨0, [], [], [], [], 0⟩
          [(0, 0, 0, true), (1, 1, 0, true), (2, 2, 0, false),
           (3, 3, 0, true)]).Pairwise (· < ·)
       ∧ (run_create_bindings ⟨0, [], [], [], [], 0⟩
          [(0, 0, 0, true), (1, 1, 0, true), (2, 2, 0, false),
           (3, 3, 0, true)]).Nodup) :=
  ⟨by norm_num [UINT64_MOD],
   binding_ids_strictly_increasing ⟨0, [], [], [], [], 0⟩ _
     (by norm_num [UINT64_MOD])⟩

/-! ### C3 and C4: the driver's pipeline and exit codes -/

/-- Exit-code characterization of `eshkol_main`: help exits 0, option
and argument errors exit 1, and a compilation exits 0 exactly when every
stage succeeds and (in compile-and-run mode) the host C compiler
invocation returns 0. -/
theorem eshkol_main_exit (argv : List String) (env : MainEnv) :
    (eshkol_main argv env).1 =
      match parse_options false false argv with
      | OptParse.help => 0
      | OptParse.unknownOption _ => 1
      | OptParse.opts _ _ [] => 1
      | OptParse.opts _ _ (_ :: rest) =>
        if all_stages_ok env = true ∧ (rest ≠ [] ∨ env.exec_result = 0)
        then 0 else 1 := by
  obtain ⟨r, a, st, dg, lx, pr, po, cg, gn, ex⟩ := env
  rcases hpo : parse_options false false argv with _ | bad | ⟨v, d, rest0⟩
  · simp [eshkol_main, hpo]
  · simp [eshkol_main, hpo]
  · rcases rest0 with _ | ⟨input, rest⟩
    · simp [eshkol_main, hpo]
    · rcases rest with _ | ⟨o, rest2⟩ <;>
        simp only [eshkol_main, hpo] <;>
        split_ifs <;>
        simp_all [all_stages_ok]

/-- Trace characterization of `eshkol_main`: the invoked stages always
form a prefix of lexer creation, parser creation, parse, codegen
creation, C generation, compile-and-execute. -/
theorem eshkol_main_trace (argv : List String) (env : MainEnv) :
    ∃ k, (eshkol_main argv env).2 = pipelineStages.take k := by
  rcases hpo : parse_options false false argv with _ | bad | ⟨v, d, rest0⟩
  · exact ⟨0, by simp [eshkol_main, hpo]⟩
  · exact ⟨0, by simp [eshkol_main, hpo]⟩
  · rcases rest0 with _ | ⟨input, rest⟩
    · exact ⟨0, by simp [eshkol_main, hpo]⟩
    · rcases rest with _ | ⟨o, rest2⟩ <;>
        simp only [eshkol_main, hpo] <;>
        split_ifs <;>
        first
        | exact ⟨0, rfl⟩
        | exact ⟨1, rfl⟩
        | exact ⟨2, rfl⟩
        | exact ⟨3, rfl⟩
        | exact ⟨4, rfl⟩
        | exact ⟨5, rfl⟩
        | exact ⟨6, rfl⟩

/-- C3 counterexample: a fully successful compile of `in.esk` to
`out.c` reaches code generation with the trace lexer → parser → parse →
codegen — no binding-resolution and no type-inference stage ever runs,
so code generation does not receive a type map produced by inference. -/
theorem pipeline_no_inference_counterexample :
    (eshkol_main (["in.esk", "out.c"])
        ⟨true, true, true, true, true, true, true, true, true, 0⟩).2
      = [Stage.lexerCreate, Stage.parserCreate, Stage.parseProgram,
         Stage.codegenCreate, Stage.codegenGenerate]
    ∧ Stage.bindingResolve ∉
        (eshkol_main (["in.esk", "out.c"])
          ⟨true, true, true, true, true, true, true, true, true, 0⟩).2
    ∧ Stage.typeInference ∉
        (eshkol_main (["in.esk", "out.c"])
          ⟨true, true, true, true, true, true, true, true, true, 0⟩).2
    ∧ (eshkol_main (["in.esk", "out.c"])
        ⟨true, true, true, true, true, true, true, true, true, 0⟩).1 = 0 := by
  decide

/-- C3 as amended: the pipeline of src/src/main.c runs lexer creation,
parser creation, parsing, and then code generation directly on the
parsed AST; its stage trace is always a prefix of that sequence (plus
compile-and-execute), and neither a binding-resolution stage nor a
type-inference stage is ever invoked. -/
theorem pipeline_stages_amended (argv : List String) (env : MainEnv) :
    (∃ k, (eshkol_main argv env).2 = pipelineStages.take k)
    ∧ Stage.bindingResolve ∉ (eshkol_main argv env).2
    ∧ Stage.typeInference ∉ (eshkol_main argv env).2 := by
  obtain ⟨k, hk⟩ := eshkol_main_trace argv env
  refine ⟨⟨k, hk⟩, ?_, ?_⟩ <;> rw [hk] <;> intro hmem <;>
    exact absurd (List.mem_of_mem_take hmem) (by decide)

/-- C4: the driver exits 0 on success and 1 on every failure — unknown
option, missing input file, unreadable input, failed
arena/string-table/diagnostic/lexer/parser/codegen creation, parse
failure, C-generation failure, or a non-zero result from the host C
compiler invocation. -/
theorem main_exit_codes (argv : List String) (env : MainEnv) :
    ((eshkol_main argv env).1 = 0 ∨ (eshkol_main argv env).1 = 1)
    ∧ (∀ bad, parse_options false false argv = OptParse.unknownOption bad →
        (eshkol_main argv env).1 = 1)
    ∧ (∀ v d, parse_options false false argv = OptParse.opts v d [] →
        (eshkol_main argv env).1 = 1)
    ∧ (∀ v d input rest,
        parse_options false false argv = OptParse.opts v d (input :: rest) →
        ((env.read_ok = false → (eshkol_main argv env).1 = 1)
         ∧ (env.arena_ok = false → (eshkol_main argv env).1 = 1)
         ∧ (env.strings_ok = false → (eshkol_main argv env).1 = 1)
         ∧ (env.diag_ok = false → (eshkol_main argv env).1 = 1)
         ∧ (env.lexer_ok = false → (eshkol_main argv env).1 = 1)
         ∧ (env.parser_ok = false → (eshkol_main argv env).1 = 1)
         ∧ (env.parse_ok = false → (eshkol_main argv env).1 = 1)
         ∧ (env.codegen_ok = false → (eshkol_main argv env).1 = 1)
         ∧ (env.generate_ok = false → (eshkol_main argv env).1 = 1)
         ∧ (all_stages_ok env = true → rest = [] → env.exec_result ≠ 0 →
             (eshkol_main argv env).1 = 1)
         ∧ (all_stages_ok env = true → rest ≠ [] →
             (eshkol_main argv env).1 = 0)
         ∧ (all_stages_ok env = true → rest = [] → env.exec_result = 0 →
             (eshkol_main argv env).1 = 0))) := by
  refine ⟨?_, ?_, ?_, ?_⟩
  · rw [eshkol_main_exit]
    rcases parse_options false false argv with _ | bad | ⟨v, d, _ | ⟨i, rest⟩⟩
    · exact Or.inl rfl
    · exact Or.inr rfl
    · exact Or.inr rfl
    · dsimp only
      split_ifs <;> simp
  · intro bad hpo
    rw [eshkol_main_exit, hpo]
  · intro v d hpo
    rw [eshkol_main_exit, hpo]
  · intro v d input rest hpo
    rw [eshkol_main_exit, hpo]
    refine ⟨?_, ?_, ?_, ?_, ?_, ?_, ?_, ?_, ?_, ?_, ?_, ?_⟩
    · intro hflag
      simp [all_stages_ok, hflag]
    · intro hflag
      simp [all_stages_ok, hflag]
    · intro hflag
      simp [all_stages_ok, hflag]
    · intro hflag
      simp [all_stages_ok, hflag]
    · intro hflag
      simp [all_stages_ok, hflag]
    · intro hflag
      simp [all_stages_ok, hflag]
    · intro hflag
      simp [all_stages_ok, hflag]
    · intro hflag
      simp [all_stages_ok, hflag]
    · intro hflag
      simp [all_stages_ok, hflag]
    · intro hall hrest hex
      simp [hall, hrest, hex]
    · intro hall hne
      simp [hall, hne]
    · intro hall hrest hex
      simp [hall, hrest, hex]

/-- Witness for C4 on a successful compile-to-file invocation. -/
theorem main_exit_codes_witness :
    parse_options false false (["in.esk", "out.c"])
        = OptParse.opts false false (["in.esk", "out.c"])
    ∧ all_stages_ok ⟨true, true, true, true, true, true, true, true, true, 0⟩
        = true
    ∧ (eshkol_main (["in.esk", "out.c"])
        ⟨true, true, true, true, true, true, true, true, true, 0⟩).1 = 0 :=
  ⟨by decide, by decide,
   ((main_exit_codes (["in.esk", "out.c"])
       ⟨true, true, true, true, true, true, true, true, true, 0⟩).2.2.2
     false false ("in.esk") (["out.c"]) (by decide)).2.2.2.2.2.2.2.2.2.2.1
     (by decide) (by decide)⟩

/-! ### C5: number tokens are float iff the lexeme holds a point -/

theorem takeDigits_append (l : List Char) :
    (takeDigits l).1 ++ (takeDigits l).2 = l := by
  induction l with
  | nil => rfl
  | cons c rest ih =>
    simp only [takeDigits]
    split_ifs with hc
    · simpa using ih
    · rfl

theorem takeDigits_digits (l : List Char) :
    ∀ c ∈ (takeDigits l).1, is_digit c = true := by
  induction l with
  | nil => simp [takeDigits]
  | cons c rest ih =>
    simp only [takeDigits]
    split_ifs with hc
    · intro x hx
      rcases List.mem_cons.mp hx with rfl | hx2
      · exact hc
      · exact ih x hx2
    · simp

theorem no_dot_in_takeDigits (l : List Char) : '.' ∉ (takeDigits l).1 := by
  intro h
  exact absurd (takeDigits_digits l '.' h) (by decide)

/-- Case analysis of `scanNumber`: the decimal point is consumed, with
its fraction digits, exactly when the input after the integer digits
starts with `'.'` followed by a digit. -/
theorem scanNumber_spec (pre rest : List Char) :
    (∃ d tail, (takeDigits rest).2 = '.' :: d :: tail ∧ is_digit d = true
       ∧ scanNumber pre rest
           = (pre ++ (takeDigits rest).1 ++ '.' :: (takeDigits (d :: tail)).1,
              (takeDigits (d :: tail)).2))
    ∨ ((¬ ∃ d tail, (takeDigits rest).2 = '.' :: d :: tail
          ∧ is_digit d = true)
       ∧ scanNumber pre rest
           = (pre ++ (takeDigits rest).1, (takeDigits rest).2)) := by
  simp only [scanNumber]
  split
  · rename_i c r2 heq
    split_ifs with hc
    · left
      exact ⟨c, r2, heq, hc, rfl⟩
    · right
      refine ⟨?_, rfl⟩
      rintro ⟨d, tail, hdt, hd⟩
      rw [heq] at hdt
      obtain ⟨rfl, rfl⟩ : c = d ∧ r2 = tail := by
        simpa using hdt
      exact absurd hd (by simp [hc])
  · rename_i ns
    right
    refine ⟨?_, rfl⟩
    rintro ⟨d, tail, hdt, hd⟩
    exact ns d tail hdt

/-- `number` in components: the payload is chosen by scanning the
lexeme for a decimal point. -/
theorem number_eq (pre rest : List Char) :
    number pre rest
      = (if (scanNumber pre rest).1.contains '.'
         then NumberValue.floating (strtodQ (scanNumber pre rest).1)
         else NumberValue.integer (strtol10 (scanNumber pre rest).1),
         (scanNumber pre rest).1, (scanNumber pre rest).2) := by
  simp only [number]
  split_ifs <;> rfl

/-- C5: a number token's payload is floating (the `strtod` decimal
value) exactly when its lexeme holds a decimal point, and integer (the
base-10 `strtol` value) otherwise; the point is consumed into the
lexeme only when the character after the integer digits is a `'.'`
immediately followed by a digit; and the lexeme extends the
already-consumed prefix by exactly the characters taken from the
input. -/
theorem lexer_number_float_iff (pre rest : List Char) (hpre : '.' ∉ pre) :
    ((∃ q, (number pre rest).1 = NumberValue.floating q)
       ↔ '.' ∈ (number pre rest).2.1)
    ∧ ('.' ∈ (number pre rest).2.1
       ↔ ∃ d tail, (takeDigits rest).2 = '.' :: d :: tail
           ∧ is_digit d = true)
    ∧ ('.' ∈ (number pre rest).2.1 →
       (number pre rest).1
         = NumberValue.floating (strtodQ (number pre rest).2.1))
    ∧ ('.' ∉ (number pre rest).2.1 →
       (number pre rest).1
         = NumberValue.integer (strtol10 (number pre rest).2.1))
    ∧ (∃ consumed, (number pre rest).2.1 = pre ++ consumed
         ∧ rest = consumed ++ (number pre rest).2.2) := by
  rcases scanNumber_spec pre rest with
    ⟨d, tail, hdt, hd, hs⟩ | ⟨hno, hs⟩
  · have hmem : '.' ∈ (scanNumber pre rest).1 := by
      rw [hs]
      simp
    have hcont : (scanNumber pre rest).1.contains '.' = true := by
      simp [hmem]
    rw [number_eq, hcont]
    simp only [if_true]
    refine ⟨⟨fun _ => hmem, fun _ => ⟨strtodQ (scanNumber pre rest).1, rfl⟩⟩,
      ⟨fun _ => ⟨d, tail, hdt, hd⟩, fun _ => hmem⟩,
      fun _ => trivial,
      fun hn => absurd hmem hn, ?_⟩
    refine ⟨(takeDigits rest).1 ++ '.' :: (takeDigits (d :: tail)).1,
      by rw [hs]; simp, ?_⟩
    rw [hs]
    have h2 := takeDigits_append (d :: tail)
    calc rest = (takeDigits rest).1 ++ (takeDigits rest).2 :=
          (takeDigits_append rest).symm
      _ = (takeDigits rest).1 ++ '.' :: (d :: tail) := by rw [hdt]
      _ = (takeDigits rest).1
            ++ '.' :: ((takeDigits (d :: tail)).1
              ++ (takeDigits (d :: tail)).2) := by rw [h2]
      _ = ((takeDigits rest).1 ++ '.' :: (takeDigits (d :: tail)).1)
            ++ (takeDigits (d :: tail)).2 := by simp
  · have hmem : '.' ∉ (scanNumber pre rest).1 := by
      rw [hs]
      intro hx
      rcases List.mem_append.mp hx with hx | hx
      · exact hpre hx
      · exact no_dot_in_takeDigits rest hx
    have hcont : (scanNumber pre rest).1.contains '.' = false := by
      simp [hmem]
    rw [number_eq, hcont]
    simp only [Bool.false_eq_true, if_false]
    refine ⟨iff_of_false ?_ hmem, iff_of_false hmem hno,
      fun hm => absurd hm hmem, fun _ => trivial, ?_⟩
    · rintro ⟨q, hq⟩
      cases hq
    · refine ⟨(takeDigits rest).1, by rw [hs], ?_⟩
      rw [hs]
      exact (takeDigits_append rest).symm

/-- Witness for C5: scanning `"2.5)"` after the consumed prefix `"1"`
yields the float lexeme `"12.5"`. -/
theorem lexer_number_float_iff_witness :
    ('.' ∉ (['1'] : List Char))
    ∧ (((∃ q, (number ['1'] ['2', '.', '5', ')']).1 = NumberValue.floating q)
         ↔ '.' ∈ (number ['1'] ['2', '.', '5', ')']).2.1)
       ∧ ('.' ∈ (number ['1'] ['2', '.', '5', ')']).2.1
         ↔ ∃ d tail, (takeDigits ['2', '.', '5', ')']).2 = '.' :: d :: tail
             ∧ is_digit d = true)
       ∧ ('.' ∈ (number ['1'] ['2', '.', '5', ')']).2.1 →
         (number ['1'] ['2', '.', '5', ')']).1
           = NumberValue.floating (strtodQ (number ['1'] ['2', '.', '5', ')']).2.1))
       ∧ ('.' ∉ (number ['1'] ['2', '.', '5', ')']).2.1 →
         (number ['1'] ['2', '.', '5', ')']).1
           = NumberValue.integer (strtol10 (number ['1'] ['2', '.', '5', ')']).2.1))
       ∧ (∃ consumed, (number ['1'] ['2', '.', '5', ')']).2.1 = ['1'] ++ consumed
           ∧ ['2', '.', '5', ')'] = consumed ++ (number ['1'] ['2', '.', '5', ')']).2.2)) :=
  ⟨by decide, lexer_number_float_iff ['1'] ['2', '.', '5', ')'] (by decide)⟩

end Eshkol
